import Mathlib

/-!
Verification of the lifecycle + query subsystem of the `no-name` NestJS
backend: the pagination decorator and interceptor, the `QueryHelper`
metadata builder, the soft-delete user service, the role/permission
service, and the MinIO-backed file service.  TypeScript functions are
embedded as executable Lean definitions; JavaScript numbers that can be
`NaN` or infinite are modelled by the `JSNum` type, database and bucket
state by explicit lists, and thrown HTTP exceptions by `Except` errors.
-/

/-- JavaScript number values that arise in this code base: an integer,
`NaN`, or one of the two infinities.  `parseInt` only ever produces
`num` or `nan`; the infinities appear as results of division. -/
inductive JSNum where
  | num (v : Int)
  | nan
  | posInf
  | negInf
deriving DecidableEq, Repr

namespace JSNum

/-- JavaScript `<` comparison: any comparison with `NaN` is `false`. -/
def lt : JSNum → JSNum → Bool
  | num a, num b => a < b
  | num _, posInf => true
  | negInf, num _ => true
  | negInf, posInf => true
  | _, _ => false

/-- JavaScript `Math.max`: `NaN` absorbs. -/
def jmax : JSNum → JSNum → JSNum
  | nan, _ => nan
  | _, nan => nan
  | posInf, _ => posInf
  | _, posInf => posInf
  | negInf, b => b
  | a, negInf => a
  | num x, num y => num (max x y)

/-- JavaScript `Math.min`: `NaN` absorbs. -/
def jmin : JSNum → JSNum → JSNum
  | nan, _ => nan
  | _, nan => nan
  | negInf, _ => negInf
  | _, negInf => negInf
  | posInf, b => b
  | a, posInf => a
  | num x, num y => num (min x y)

/-- JavaScript subtraction on the modelled values. -/
def jsub : JSNum → JSNum → JSNum
  | nan, _ => nan
  | _, nan => nan
  | num a, num b => num (a - b)
  | posInf, posInf => nan
  | posInf, _ => posInf
  | negInf, negInf => nan
  | negInf, _ => negInf
  | num _, posInf => negInf
  | num _, negInf => posInf

/-- JavaScript multiplication on the modelled values. -/
def jmul : JSNum → JSNum → JSNum
  | nan, _ => nan
  | _, nan => nan
  | num a, num b => num (a * b)
  | posInf, num b => if b = 0 then nan else if 0 < b then posInf else negInf
  | num a, posInf => if a = 0 then nan else if 0 < a then posInf else negInf
  | negInf, num b => if b = 0 then nan else if 0 < b then negInf else posInf
  | num a, negInf => if a = 0 then nan else if 0 < a then negInf else posInf
  | posInf, posInf => posInf
  | posInf, negInf => negInf
  | negInf, posInf => negInf
  | negInf, negInf => posInf

end JSNum

/-- Value of a list of decimal digit characters, most significant first. -/
def digitsVal (ds : List Char) : Nat :=
  ds.foldl (fun a c => a * 10 + (c.toNat - 48)) 0

/-- Longest digit prefix of a character list, `none` when it is empty. -/
def parseDigits (r : List Char) : Option Nat :=
  let ds := r.takeWhile Char.isDigit
  if ds.isEmpty then none else some (digitsVal ds)

/-- JavaScript `parseInt(s, 10)`: skip leading whitespace, read an
optional sign and the longest digit prefix; `NaN` when no digit is
found. -/
def parseIntJS (s : String) : JSNum :=
  match s.toList.dropWhile Char.isWhitespace with
  | '-' :: r =>
    match parseDigits r with
    | none => .nan
    | some n => .num (-(n : Int))
  | '+' :: r =>
    match parseDigits r with
    | none => .nan
    | some n => .num n
  | r =>
    match parseDigits r with
    | none => .nan
    | some n => .num n

/-- JavaScript `q || d` for an optional query-string value: an absent
value and the empty string are falsy and fall back to the default. -/
def jsOrDefault (q : Option String) (d : String) : String :=
  match q with
  | none => d
  | some s => if s.isEmpty then d else s

/-- The descriptor returned by the `Pagination` param decorator. -/
structure PaginationParams where
  page : JSNum
  limit : JSNum
  skip : JSNum
deriving DecidableEq, Repr

/-- First variant of the `Pagination` decorator
(`pagination.decorator.ts`): conditional-expression clamping, with an
out-of-range-low limit falling back to the default 10. -/
def Pagination1 (qpage qlimit : Option String) : PaginationParams :=
  let page := parseIntJS (jsOrDefault qpage "1")
  let limit := parseIntJS (jsOrDefault qlimit "10")
  let validPage := if JSNum.lt page (.num 1) then .num 1 else page
  let validLimit :=
    if JSNum.lt limit (.num 1) then .num 10
    else if JSNum.lt (.num 100) limit then .num 100
    else limit
  { page := validPage
    limit := validLimit
    skip := JSNum.jmul (JSNum.jsub validPage (.num 1)) validLimit }

/-- Second variant of the `Pagination` decorator: `Math.max`/`Math.min`
clamping.  The sort/order/search/filter passthrough fields of this
variant carry no logic relevant to the claims and are not modelled. -/
def Pagination2 (qpage qlimit : Option String) : PaginationParams :=
  let page := JSNum.jmax (.num 1) (parseIntJS (jsOrDefault qpage "1"))
  let limit :=
    JSNum.jmax (.num 1) (JSNum.jmin (.num 100) (parseIntJS (jsOrDefault qlimit "10")))
  { page := page
    limit := limit
    skip := JSNum.jmul (JSNum.jsub page (.num 1)) limit }

example : Pagination1 none none = ⟨.num 1, .num 10, .num 0⟩ := by rfl
example : Pagination2 none none = ⟨.num 1, .num 10, .num 0⟩ := by rfl
example : Pagination1 (some "-5") (some "9999") = ⟨.num 1, .num 100, .num 0⟩ := by rfl
example : Pagination2 (some "-5") (some "9999") = ⟨.num 1, .num 100, .num 0⟩ := by rfl
example : (Pagination1 (some "abc") none).page = JSNum.nan := by rfl
example : (Pagination2 none (some "abc")).limit = JSNum.nan := by rfl
example : Pagination1 (some "0") (some "0") = ⟨.num 1, .num 10, .num 0⟩ := by rfl
example : Pagination2 (some "0") (some "0") = ⟨.num 1, .num 1, .num 0⟩ := by rfl

/-- A pagination descriptor whose fields are genuine numbers in the
ranges the specification claims: `page ≥ 1`, `limit ∈ [1,100]`,
`skip = (page - 1) * limit ≥ 0`. -/
def boundedParams (r : PaginationParams) : Prop :=
  ∃ p l : Int, r.page = .num p ∧ r.limit = .num l ∧ r.skip = .num ((p - 1) * l) ∧
    1 ≤ p ∧ 1 ≤ l ∧ l ≤ 100 ∧ 0 ≤ (p - 1) * l

/-- C1 (amended): for every page/limit query input whose (defaulted)
value `parseInt` maps to an actual number — this includes absent,
empty, negative, zero and huge values, but not non-numeric strings,
which produce `NaN` — both variants of the `Pagination` decorator
return a descriptor with `page ≥ 1`, `limit ∈ [1,100]` and
`skip = (page-1)*limit ≥ 0`, and with page defaulting to 1 and limit
defaulting to 10 when the values are absent.  The decorator is a total
function, so it never raises. -/
theorem C1_pagination_clamps (qpage qlimit : Option String) (p l : Int)
    (hp : parseIntJS (jsOrDefault qpage "1") = .num p)
    (hl : parseIntJS (jsOrDefault qlimit "10") = .num l) :
    boundedParams (Pagination1 qpage qlimit) ∧
    boundedParams (Pagination2 qpage qlimit) ∧
    Pagination1 none none = ⟨.num 1, .num 10, .num 0⟩ ∧
    Pagination2 none none = ⟨.num 1, .num 10, .num 0⟩ := by
  refine ⟨?_, ?_, by rfl, by rfl⟩
  · refine ⟨if p < 1 then 1 else p, if l < 1 then 10 else if 100 < l then 100 else l,
      ?_, ?_, ?_, ?_, ?_, ?_, ?_⟩
    · simp only [Pagination1, hp, hl, JSNum.lt]
      by_cases h1 : p < 1 <;> simp [h1]
    · simp only [Pagination1, hp, hl, JSNum.lt]
      by_cases h2 : l < 1 <;> by_cases h3 : 100 < l <;> simp [h2, h3]
    · simp only [Pagination1, hp, hl, JSNum.lt]
      by_cases h1 : p < 1 <;> by_cases h2 : l < 1 <;> by_cases h3 : 100 < l <;>
        simp [h1, h2, h3, JSNum.jsub, JSNum.jmul]
    · split <;> omega
    · split <;> [omega; skip]
      split <;> omega
    · split <;> [omega; skip]
      split <;> omega
    · refine mul_nonneg ?_ ?_
      · split <;> omega
      · split <;> [omega; skip]
        split <;> omega
  · refine ⟨max 1 p, max 1 (min 100 l), ?_, ?_, ?_, ?_, ?_, ?_, ?_⟩
    · simp [Pagination2, hp, hl, JSNum.jmax, JSNum.jmin]
    · simp [Pagination2, hp, hl, JSNum.jmax, JSNum.jmin]
    · simp [Pagination2, hp, hl, JSNum.jmax, JSNum.jmin, JSNum.jsub, JSNum.jmul]
    · omega
    · omega
    · omega
    · refine mul_nonneg ?_ ?_ <;> omega

/-- C1 counterexample: a non-numeric query value such as `page=abc`
parses to `NaN`, which passes through both clamps unchanged, so the
returned descriptor's `page` (and hence `skip`) is `NaN` — not a
number `≥ 1` as the claim states for non-numeric input. -/
theorem C1_counterexample :
    (Pagination1 (some "abc") none).page = JSNum.nan ∧
    (Pagination1 (some "abc") none).skip = JSNum.nan ∧
    (Pagination2 none (some "abc")).limit = JSNum.nan ∧
    ¬ boundedParams (Pagination1 (some "abc") none) := by
  refine ⟨by rfl, by rfl, by rfl, ?_⟩
  rintro ⟨p, l, hp, -⟩
  have h : (Pagination1 (some "abc") none).page = JSNum.nan := by rfl
  rw [h] at hp
  exact JSNum.noConfusion hp

/-- C1 witness: the amended theorem applied at `page=-5`,
`limit=9999`. -/
theorem C1_witness :
    parseIntJS (jsOrDefault (some "-5") "1") = .num (-5) ∧
    parseIntJS (jsOrDefault (some "9999") "10") = .num 9999 ∧
    (boundedParams (Pagination1 (some "-5") (some "9999")) ∧
     boundedParams (Pagination2 (some "-5") (some "9999")) ∧
     Pagination1 none none = ⟨.num 1, .num 10, .num 0⟩ ∧
     Pagination2 none none = ⟨.num 1, .num 10, .num 0⟩) :=
  ⟨by rfl, by rfl,
   C1_pagination_clamps (some "-5") (some "9999") (-5) 9999 (by rfl) (by rfl)⟩

/-- The pagination metadata shape produced by `QueryHelper.buildMeta`. -/
structure PaginationMeta where
  page : Nat
  limit : Nat
  total : Nat
  totalPages : Nat
  hasNextPage : Bool
  hasPreviousPage : Bool
deriving DecidableEq, Repr

/-- Embeds `QueryHelper.buildMeta`: `Math.ceil(total / limit)` computed on the
naturals (`(total + limit - 1) / limit` agrees with the ceiling for
every positive `limit`), `hasNextPage = page < totalPages`,
`hasPreviousPage = page > 1`. -/
def buildMeta (page limit total : Nat) : PaginationMeta :=
  let totalPages := (total + limit - 1) / limit
  { page := page, limit := limit, total := total, totalPages := totalPages
    hasNextPage := decide (page < totalPages)
    hasPreviousPage := decide (1 < page) }

lemma pred_div_eq_ceil (t l : Nat) (hl : 0 < l) :
    (t + l - 1) / l = ⌈(t : ℚ) / (l : ℚ)⌉₊ := by
  have h1 : ∀ k : ℕ, (t + l - 1) / l ≤ k ↔ t ≤ l * k := by
    intro k
    rw [← Nat.ceilDiv_eq_add_pred_div, ceilDiv_le_iff_le_smul hl, smul_eq_mul]
  have h2 : ∀ k : ℕ, ⌈(t : ℚ) / (l : ℚ)⌉₊ ≤ k ↔ t ≤ l * k := by
    intro k
    rw [Nat.ceil_le, div_le_iff₀ (by positivity)]
    rw [mul_comm (k : ℚ) (l : ℚ)]
    norm_cast
  exact le_antisymm ((h1 _).2 ((h2 _).1 le_rfl)) ((h2 _).2 ((h1 _).1 le_rfl))

/-- C6: for every `(page, limit, total)` with a positive limit, the
result-metadata builder returns `totalPages = ⌈total / limit⌉`,
`hasNextPage` true iff `page < totalPages`, and `hasPreviousPage` true
iff `page > 1`. -/
theorem C6_buildMeta_spec (page limit total : Nat) (hl : 0 < limit) :
    (buildMeta page limit total).totalPages = ⌈(total : ℚ) / (limit : ℚ)⌉₊ ∧
    ((buildMeta page limit total).hasNextPage = true ↔
      page < ⌈(total : ℚ) / (limit : ℚ)⌉₊) ∧
    ((buildMeta page limit total).hasPreviousPage = true ↔ 1 < page) := by
  have h := pred_div_eq_ceil total limit hl
  refine ⟨?_, ?_, ?_⟩
  · simpa [buildMeta] using h
  · simp [buildMeta, h]
  · simp [buildMeta]

/-- C6 witness: the spec's own example `total=25, limit=10, page=3`
gives `totalPages=3`, `hasNextPage=false`, `hasPreviousPage=true`. -/
theorem C6_witness :
    0 < 10 ∧
    ((buildMeta 3 10 25).totalPages = ⌈(25 : ℚ) / (10 : ℚ)⌉₊ ∧
     ((buildMeta 3 10 25).hasNextPage = true ↔
       3 < ⌈(25 : ℚ) / (10 : ℚ)⌉₊) ∧
     ((buildMeta 3 10 25).hasPreviousPage = true ↔ 1 < 3)) ∧
    buildMeta 3 10 25 = ⟨3, 10, 25, 3, false, true⟩ :=
  ⟨by decide, C6_buildMeta_spec 3 10 25 (by decide), by rfl⟩

/-- JavaScript `Math.ceil(t / l)` for a natural numerator `t` and a
JavaScript-number denominator: division by `NaN` is `NaN`, by an
infinity yields 0, by zero yields `NaN` (for `0/0`) or `+Infinity`,
and otherwise the exact rational ceiling. -/
def jceilDivNat (t : Nat) : JSNum → JSNum
  | .nan => .nan
  | .posInf => .num 0
  | .negInf => .num 0
  | .num l =>
    if 0 < l then .num (((t + l.toNat - 1) / l.toNat : Nat) : Int)
    else if l = 0 then (if t = 0 then .nan else .posInf)
    else .num (-((t / l.natAbs : Nat) : Int))

/-- A handler response as seen by the `PaginationInterceptor`: an
object with `data`/`total` (and optional `page`/`totalPages`) fields,
a bare array, or anything else (passed through untouched). -/
inductive InterceptInput (α : Type) where
  | paginated (data : List α) (total : Nat) (pageField : Option Int)
      (totalPagesField : Option Nat)
  | arr (xs : List α)
  | other

/-- The metadata object assembled by the interceptor.  `page`, `limit`
and `totalPages` come from unvalidated arithmetic on raw query values,
so they are JavaScript numbers. -/
structure InterceptorMeta where
  total : Nat
  page : JSNum
  limit : JSNum
  totalPages : JSNum
  hasNextPage : Bool
  hasPreviousPage : Bool
deriving DecidableEq, Repr

/-- The interceptor's output: a `{data, meta}` envelope or the
original response passed through. -/
inductive InterceptOutput (α : Type) where
  | paged (data : List α) (meta : InterceptorMeta)
  | passthrough

/-- The metadata built by `PaginationInterceptor.intercept` for a
`{data, total, …}` response: `page`/`limit` are parsed from the raw
query with defaults 1 and 10 and NO clamping; a provided (truthy)
response `page`/`totalPages` field wins over the computed one. -/
def paginatedMeta (qpage qlimit : Option String) (total : Nat)
    (pageField : Option Int) (totalPagesField : Option Nat) : InterceptorMeta :=
  let page := parseIntJS (jsOrDefault qpage "1")
  let limit := parseIntJS (jsOrDefault qlimit "10")
  let currentPage : JSNum :=
    match pageField with
    | some p => if p = 0 then page else .num p
    | none => page
  let total_pages : JSNum :=
    match totalPagesField with
    | some tp => if tp = 0 then jceilDivNat total limit else .num tp
    | none => jceilDivNat total limit
  { total := total
    page := currentPage
    limit := limit
    totalPages := total_pages
    hasNextPage := JSNum.lt currentPage total_pages
    hasPreviousPage := JSNum.lt (.num 1) currentPage }

/-- Embeds `PaginationInterceptor.intercept` (pagination.interface.ts second
document): wraps a paginated response or a bare array in a
`{data, meta}` envelope, passing anything else through unchanged. -/
def intercept {α : Type} (qpage qlimit : Option String)
    (resp : InterceptInput α) : InterceptOutput α :=
  match resp with
  | .paginated data total pageField totalPagesField =>
    .paged data (paginatedMeta qpage qlimit total pageField totalPagesField)
  | .arr xs =>
    .paged xs
      { total := xs.length
        page := parseIntJS (jsOrDefault qpage "1")
        limit := parseIntJS (jsOrDefault qlimit "10")
        totalPages := .num 1
        hasNextPage := false
        hasPreviousPage := false }
  | .other => .passthrough

/-- C10: the interceptor echoes the raw parsed `limit` (default 10,
no clamping) in the response metadata, so for an out-of-range client
limit the echoed `meta.limit` differs from the clamped limit the
`Pagination` decorator hands to the data query. -/
theorem C10_interceptor_echoes_raw_limit {α : Type} (qpage qlimit : Option String)
    (data : List α) (total : Nat) (pageField : Option Int)
    (totalPagesField : Option Nat) (l : Int)
    (hl : parseIntJS (jsOrDefault qlimit "10") = .num l) :
    intercept qpage qlimit (.paginated data total pageField totalPagesField) =
      .paged data (paginatedMeta qpage qlimit total pageField totalPagesField) ∧
    (paginatedMeta qpage qlimit total pageField totalPagesField).limit = .num l ∧
    ((l < 1 ∨ 100 < l) →
      (Pagination2 qpage qlimit).limit ≠ .num l) := by
  refine ⟨rfl, by simp [paginatedMeta, hl], ?_⟩
  intro hrange
  simp only [Pagination2, hl, JSNum.jmin, JSNum.jmax]
  intro heq
  rw [JSNum.num.injEq] at heq
  omega

/-- C10 witness: with `limit=9999` the interceptor's metadata echoes
9999 while the decorator clamps the fetch limit to 100. -/
theorem C10_witness :
    parseIntJS (jsOrDefault (some "9999") "10") = .num 9999 ∧
    (intercept (α := Nat) none (some "9999") (.paginated [1, 2] 25 none none) =
      .paged [1, 2] (paginatedMeta none (some "9999") 25 none none) ∧
     (paginatedMeta none (some "9999") 25 none none).limit = .num 9999 ∧
     ((9999 : Int) < 1 ∨ (100 : Int) < 9999 →
       (Pagination2 none (some "9999")).limit ≠ .num 9999)) :=
  ⟨by rfl,
   C10_interceptor_echoes_raw_limit none (some "9999") [1, 2] 25 none none 9999 (by rfl)⟩

/-- The Prisma `Resource` enum. -/
inductive Resource where
  | USER
  | PERMISSION
deriving DecidableEq, Repr

/-- The Prisma `Action` enum (named `RoleAction` here because Mathlib
already declares `Action`). -/
inductive RoleAction where
  | CREATE
  | READ
  | UPDATE
  | DELETE
deriving DecidableEq, Repr

/-- Embeds `PermissionDto`: one resource with a list of actions. -/
structure PermissionDto where
  resource : Resource
  action : List RoleAction
deriving DecidableEq, Repr

/-- Embeds `CreateRoleDto` (description field omitted — unused by the service). -/
structure CreateRoleDto where
  name : String
  permissions : Option (List PermissionDto)
deriving DecidableEq, Repr

/-- Embeds `UpdateRoleDto`: both fields optional. -/
structure UpdateRoleDto where
  name : Option String
  permissions : Option (List PermissionDto)
deriving DecidableEq, Repr

/-- A row of the `role_permissions` table (id/createdAt columns are
irrelevant to the claims and omitted). -/
structure GrantRow where
  roleId : String
  resource : Resource
  action : RoleAction
deriving DecidableEq, Repr

/-- A row of the `roles` table. -/
structure RoleRow where
  id : String
  name : String
deriving DecidableEq, Repr

/-- The relational state the role service operates on. -/
structure RoleDB where
  roles : List RoleRow
  grants : List GrantRow
deriving DecidableEq, Repr

/-- The `flatMap` in `RoleService.create`/`update`: flatten each
`{resource, action: [...]}` entry into one `(resource, action)` pair
per action. -/
def flattenPermissions (ps : List PermissionDto) : List (Resource × RoleAction) :=
  ps.flatMap fun p => p.action.map fun a => (p.resource, a)

/-- Embeds `RoleService.create`: insert the role; when a non-empty permission
list is supplied (`dto.permissions?.length` is truthy), create one
grant row per flattened pair. -/
def RoleService.create (db : RoleDB) (newId : String) (dto : CreateRoleDto) : RoleDB :=
  let newGrants : List GrantRow :=
    match dto.permissions with
    | some ps =>
      if ps.length = 0 then []
      else (flattenPermissions ps).map fun q => ⟨newId, q.1, q.2⟩
    | none => []
  { roles := db.roles ++ [⟨newId, dto.name⟩], grants := db.grants ++ newGrants }

/-- Embeds `RoleService.update`: optionally rename; when a permission list is
supplied (any array, even empty, is truthy), `deleteMany {}` removes
every grant of the role and the submitted flattened set is created. -/
def RoleService.update (db : RoleDB) (id : String) (dto : UpdateRoleDto) : RoleDB :=
  let roles :=
    match dto.name with
    | some n => db.roles.map fun r => if r.id = id then { r with name := n } else r
    | none => db.roles
  match dto.permissions with
  | some ps =>
    { roles := roles
      grants := db.grants.filter (fun g => !(g.roleId == id)) ++
        (flattenPermissions ps).map fun q => ⟨id, q.1, q.2⟩ }
  | none => { roles := roles, grants := db.grants }

lemma RoleService.create_grants (db : RoleDB) (newId : String) (dto : CreateRoleDto)
    (ps : List PermissionDto) (hdto : dto.permissions = some ps) :
    (RoleService.create db newId dto).grants =
      db.grants ++ (flattenPermissions ps).map fun q => ⟨newId, q.1, q.2⟩ := by
  cases ps with
  | nil => simp [RoleService.create, hdto, flattenPermissions]
  | cons p rest => simp [RoleService.create, hdto]

lemma grantRow_injective (id : String) :
    Function.Injective (fun q : Resource × RoleAction => (⟨id, q.1, q.2⟩ : GrantRow)) := by
  rintro ⟨r1, a1⟩ ⟨r2, a2⟩ h
  simp only [GrantRow.mk.injEq] at h
  simp [h.1, h.2]

lemma filter_after_filter_not {α : Type} (p : α → Bool) (l : List α) :
    (l.filter fun a => !(p a)).filter p = [] := by
  induction l with
  | nil => rfl
  | cons x t ih => cases hx : p x <;> simp [hx, ih]

lemma filter_not_after_filter_not {α : Type} (p : α → Bool) (l : List α) :
    ((l.filter fun a => !(p a)).filter fun a => !(p a)) = l.filter fun a => !(p a) := by
  induction l with
  | nil => rfl
  | cons x t ih => cases hx : p x <;> simp [hx, ih]

lemma RoleService.update_grants (db : RoleDB) (id : String) (dto : UpdateRoleDto)
    (ps : List PermissionDto) (hdto : dto.permissions = some ps) :
    (RoleService.update db id dto).grants =
      db.grants.filter (fun g => !(g.roleId == id)) ++
        (flattenPermissions ps).map fun q => ⟨id, q.1, q.2⟩ := by
  cases h : dto.name <;> simp [RoleService.update, hdto, h]

/-- C7: creating a role with a permission list yields, for every
`(resource, action)` pair, exactly one grant when the pair is in the
flattened list and none otherwise; updating a role's permissions is a
full replace — the role's grant set afterwards is exactly the
flattened submitted set, other roles' grants are untouched, and an old
grant that is not resubmitted is gone. -/
theorem C7_role_permission_full_replace (db db2 : RoleDB) (newId : String)
    (dto : CreateRoleDto) (ps : List PermissionDto)
    (id : String) (udto : UpdateRoleDto) (ups : List PermissionDto)
    (hdto : dto.permissions = some ps)
    (hfresh : ∀ g ∈ db.grants, g.roleId ≠ newId)
    (hnodup : (flattenPermissions ps).Nodup)
    (hudto : udto.permissions = some ups) :
    (∀ r a, ((r, a) ∈ flattenPermissions ps →
        (RoleService.create db newId dto).grants.count ⟨newId, r, a⟩ = 1) ∧
      ((r, a) ∉ flattenPermissions ps →
        (RoleService.create db newId dto).grants.count ⟨newId, r, a⟩ = 0)) ∧
    (RoleService.update db2 id udto).grants.filter (fun g => g.roleId == id) =
      (flattenPermissions ups).map (fun q => ⟨id, q.1, q.2⟩) ∧
    ((RoleService.update db2 id udto).grants.filter fun g => !(g.roleId == id)) =
      (db2.grants.filter fun g => !(g.roleId == id)) ∧
    (∀ g ∈ db2.grants, g.roleId = id → (g.resource, g.action) ∉ flattenPermissions ups →
      g ∉ (RoleService.update db2 id udto).grants) := by
  have hc := RoleService.create_grants db newId dto ps hdto
  have hu := RoleService.update_grants db2 id udto ups hudto
  refine ⟨?_, ?_, ?_, ?_⟩
  · intro r a
    have hdb : (⟨newId, r, a⟩ : GrantRow) ∉ db.grants := fun hmem => hfresh _ hmem rfl
    have hmapnodup : (((flattenPermissions ps).map
        fun q => (⟨newId, q.1, q.2⟩ : GrantRow))).Nodup :=
      hnodup.map (grantRow_injective newId)
    constructor
    · intro hmem
      rw [hc, List.count_append, List.count_eq_zero_of_not_mem hdb, Nat.zero_add]
      exact List.count_eq_one_of_mem hmapnodup (List.mem_map_of_mem _ hmem)
    · intro hmem
      rw [hc, List.count_append, List.count_eq_zero_of_not_mem hdb, Nat.zero_add]
      apply List.count_eq_zero_of_not_mem
      intro hmem2
      rw [List.mem_map] at hmem2
      obtain ⟨q, hq, hEq⟩ := hmem2
      apply hmem
      have hqe : q = (r, a) := grantRow_injective newId hEq
      rwa [hqe] at hq
  · rw [hu, List.filter_append, filter_after_filter_not, List.nil_append,
      List.filter_eq_self.mpr]
    intro g hg
    simp only [List.mem_map] at hg
    obtain ⟨q, -, rfl⟩ := hg
    simp
  · rw [hu, List.filter_append, filter_not_after_filter_not]
    have : (((flattenPermissions ups).map fun q => (⟨id, q.1, q.2⟩ : GrantRow)).filter
        fun g => !(g.roleId == id)) = [] := by
      rw [List.filter_eq_nil_iff]
      intro g hg
      simp only [List.mem_map] at hg
      obtain ⟨q, -, rfl⟩ := hg
      simp
    rw [this, List.append_nil]
  · intro g hgmem hgid hnot hmem
    rw [hu] at hmem
    rcases List.mem_append.mp hmem with h | h
    · have := List.of_mem_filter h
      simp [hgid] at this
    · simp only [List.mem_map] at h
      obtain ⟨q, hq, hEq⟩ := h
      apply hnot
      rw [← hEq] at hgid ⊢
      simpa using hq

/-- A concrete role database used by the C7 witness. -/
def roleDbEx : RoleDB :=
  ⟨[⟨"r1", "admin"⟩], [⟨"r1", .USER, .READ⟩, ⟨"r1", .USER, .UPDATE⟩]⟩

/-- The spec's example create payload `[{resource: USER, action: [READ, UPDATE]}]`. -/
def createDtoEx : CreateRoleDto := ⟨"admin", some [⟨.USER, [.READ, .UPDATE]⟩]⟩

/-- A replacement permission payload for the C7 witness. -/
def updateDtoEx : UpdateRoleDto := ⟨none, some [⟨.PERMISSION, [.DELETE]⟩]⟩

/-- C7 witness: creating with `[{USER, [READ, UPDATE]}]` yields exactly
the two grants, and replacing with `[{PERMISSION, [DELETE]}]` leaves
exactly the new set, the old `READ` grant gone. -/
theorem C7_witness :
    (RoleService.create ⟨[], []⟩ "r1" createDtoEx).grants =
      [⟨"r1", .USER, .READ⟩, ⟨"r1", .USER, .UPDATE⟩] ∧
    (RoleService.create ⟨[], []⟩ "r1" createDtoEx).grants.count ⟨"r1", .USER, .READ⟩ = 1 ∧
    (RoleService.update roleDbEx "r1" updateDtoEx).grants.filter
      (fun g => g.roleId == "r1") = [⟨"r1", .PERMISSION, .DELETE⟩] ∧
    (⟨"r1", Resource.USER, RoleAction.READ⟩ : GrantRow) ∉
      (RoleService.update roleDbEx "r1" updateDtoEx).grants := by
  have h := C7_role_permission_full_replace ⟨[], []⟩ roleDbEx "r1" createDtoEx
    [⟨.USER, [.READ, .UPDATE]⟩] "r1" updateDtoEx [⟨.PERMISSION, [.DELETE]⟩]
    (by rfl) (by simp [RoleDB.grants]) (by decide) (by rfl)
  refine ⟨by rfl, (h.1 .USER .READ).1 (by decide), (h.2.1).trans (by rfl), ?_⟩
  exact h.2.2.2 ⟨"r1", .USER, .READ⟩ (by decide) rfl (by decide)

/-- The decimal digit character for `d` (`d ≥ 9` is clamped; callers
only pass `d < 10`). -/
def digitChar10 : Nat → Char
  | 0 => '0' | 1 => '1' | 2 => '2' | 3 => '3' | 4 => '4'
  | 5 => '5' | 6 => '6' | 7 => '7' | 8 => '8' | _ => '9'

/-- Decimal rendering of a natural number, most significant digit
first: the character sequence a JavaScript template literal produces
for an integer-valued number such as `Date.now()`. -/
def natDecimal (n : Nat) : List Char :=
  if n < 10 then [digitChar10 n]
  else natDecimal (n / 10) ++ [digitChar10 (n % 10)]
termination_by n
decreasing_by exact Nat.div_lt_self (by omega) (by omega)

lemma digitChar10_val (d : Nat) (h : d < 10) : (digitChar10 d).toNat - 48 = d := by
  interval_cases d <;> rfl

lemma digitChar10_ne_dash (d : Nat) : digitChar10 d ≠ '-' := by
  unfold digitChar10
  split <;> decide

lemma digitsVal_append_digit (xs : List Char) (c : Char) :
    digitsVal (xs ++ [c]) = 10 * digitsVal xs + (c.toNat - 48) := by
  simp [digitsVal, List.foldl_append, Nat.mul_comm]

lemma natDecimal_val (n : Nat) : digitsVal (natDecimal n) = n := by
  induction n using Nat.strong_induction_on with
  | _ n ih =>
    rw [natDecimal]
    split
    · next h =>
      simpa [digitsVal] using digitChar10_val n h
    · next h =>
      rw [digitsVal_append_digit, ih (n / 10) (Nat.div_lt_self (by omega) (by omega)),
        digitChar10_val (n % 10) (Nat.mod_lt _ (by omega))]
      omega

lemma natDecimal_injective : Function.Injective natDecimal := by
  intro a b h
  have := natDecimal_val a
  rw [h, natDecimal_val] at this
  omega

lemma dash_not_mem_natDecimal (n : Nat) : '-' ∉ natDecimal n := by
  induction n using Nat.strong_induction_on with
  | _ n ih =>
    rw [natDecimal]
    split
    · next h =>
      intro hmem
      simp only [List.mem_singleton] at hmem
      exact digitChar10_ne_dash n hmem.symm
    · next h =>
      intro hmem
      rcases List.mem_append.mp hmem with hm | hm
      · exact ih (n / 10) (Nat.div_lt_self (by omega) (by omega)) hm
      · simp only [List.mem_singleton] at hm
        exact digitChar10_ne_dash (n % 10) hm.symm

lemma append_dash_inj {a1 a2 r1 r2 : List Char}
    (h1 : '-' ∉ a1) (h2 : '-' ∉ a2)
    (h : a1 ++ '-' :: r1 = a2 ++ '-' :: r2) : a1 = a2 ∧ r1 = r2 := by
  induction a1 generalizing a2 with
  | nil =>
    cases a2 with
    | nil => simpa using h
    | cons b bs =>
      simp only [List.nil_append, List.cons_append, List.cons.injEq] at h
      exact absurd (h.1 ▸ List.mem_cons_self b bs) h2
  | cons x xs ih =>
    cases a2 with
    | nil =>
      simp only [List.cons_append, List.nil_append, List.cons.injEq] at h
      exact absurd (h.1 ▸ List.mem_cons_self x xs) h1
    | cons b bs =>
      simp only [List.cons_append, List.cons.injEq] at h
      obtain ⟨hx, hrest⟩ := h
      have hr := ih (fun hm => h1 (List.mem_cons_of_mem _ hm))
        (fun hm => h2 (List.mem_cons_of_mem _ hm)) hrest
      exact ⟨by rw [hx, hr.1], hr.2⟩

/-- The character class the upload-name regex `[^a-zA-Z0-9.-]` keeps. -/
def isObjectNameSafe (c : Char) : Bool :=
  (decide ('a' ≤ c) && decide (c ≤ 'z')) || (decide ('A' ≤ c) && decide (c ≤ 'Z')) ||
    (decide ('0' ≤ c) && decide (c ≤ '9')) || c == '.' || c == '-'

/-- Embeds `originalName.replace(/[^a-zA-Z0-9.-]/g, '_')`. -/
def sanitizeName (s : String) : String :=
  String.mk (s.data.map fun c => if isObjectNameSafe c then c else '_')

/-- Embeds `FilesService.generateObjectName`:
`{timestamp}-{uuid}-{sanitizedName}`, with the effectful
`Date.now()`/`randomUUID()` values passed as arguments. -/
def generateObjectName (timestamp : Nat) (uuid : String) (originalName : String) : String :=
  String.mk (natDecimal timestamp) ++ "-" ++ uuid ++ "-" ++ sanitizeName originalName

example : sanitizeName "my photo (1).jpg" = "my_photo__1_.jpg" := by rfl
example : generateObjectName 1733123456789 "a-b" "x.jpg" = "1733123456789-a-b-x.jpg" := by
  simp only [generateObjectName, sanitizeName]
  rw [show natDecimal 1733123456789 = "1733123456789".data by simp [natDecimal]; decide]
  decide

/-- The claim's character class `[A-Za-z0-9.-]`, written out. -/
def specSafeChar (c : Char) : Prop :=
  ('A' ≤ c ∧ c ≤ 'Z') ∨ ('a' ≤ c ∧ c ≤ 'z') ∨ ('0' ≤ c ∧ c ≤ '9') ∨ c = '.' ∨ c = '-'

lemma isObjectNameSafe_iff (c : Char) : isObjectNameSafe c = true ↔ specSafeChar c := by
  simp only [isObjectNameSafe, specSafeChar, Bool.or_eq_true, Bool.and_eq_true,
    decide_eq_true_eq, beq_iff_eq]
  tauto

lemma generateObjectName_data (t : Nat) (u n : String) :
    (generateObjectName t u n).data =
      natDecimal t ++ '-' :: (u.data ++ '-' :: (sanitizeName n).data) := by
  simp [generateObjectName, sanitizeName]

/-- C8: the object name generated on upload is
`{timestamp}-{uuid}-{sanitizedName}` with every character outside
`[A-Za-z0-9.-]` replaced by `_`, and two uploads whose timestamp+UUID
prefixes differ (the UUIDs having equal length, as `randomUUID` output
does) produce distinct object names even for the same original
filename. -/
theorem C8_object_name_format_and_distinct (t1 t2 : Nat) (u1 u2 n n1 : String)
    (hlen : u1.length = u2.length)
    (hdiff : t1 ≠ t2 ∨ u1 ≠ u2) :
    generateObjectName t1 u1 n ≠ generateObjectName t2 u2 n ∧
    (generateObjectName t1 u1 n1).data =
      natDecimal t1 ++ '-' :: (u1.data ++ '-' :: (sanitizeName n1).data) ∧
    List.Forall₂
      (fun a b => (specSafeChar a → b = a) ∧ (¬ specSafeChar a → b = '_'))
      n1.data (sanitizeName n1).data := by
  refine ⟨?_, generateObjectName_data t1 u1 n1, ?_⟩
  · intro heq
    have hdata : (generateObjectName t1 u1 n).data = (generateObjectName t2 u2 n).data := by
      rw [heq]
    rw [generateObjectName_data, generateObjectName_data] at hdata
    obtain ⟨hts, hrest⟩ :=
      append_dash_inj (dash_not_mem_natDecimal t1) (dash_not_mem_natDecimal t2) hdata
    have ht : t1 = t2 := natDecimal_injective hts
    have hdlen : u1.data.length = u2.data.length := hlen
    have hu : u1.data = u2.data := (List.append_inj hrest hdlen).1
    have hu2 : u1 = u2 := by
      cases u1
      cases u2
      exact congrArg String.mk hu
    rcases hdiff with hd | hd
    · exact hd ht
    · exact hd hu2
  · have hmap : (sanitizeName n1).data =
        n1.data.map (fun c => if isObjectNameSafe c then c else '_') := rfl
    rw [hmap, List.forall₂_map_right_iff, List.forall₂_same]
    intro a ha
    by_cases hc : isObjectNameSafe a = true
    · exact ⟨fun _ => by simp [hc], fun hn => absurd ((isObjectNameSafe_iff a).1 hc) hn⟩
    · refine ⟨fun h => absurd ((isObjectNameSafe_iff a).2 h) hc, fun _ => ?_⟩
      simp only [Bool.not_eq_true] at hc
      simp [hc]

/-- C8 witness: two uploads of `example.jpg` at the same millisecond
but with different UUIDs get distinct object names. -/
theorem C8_witness :
    ("00000000-0000-4000-8000-000000000000" : String).length =
      ("11111111-1111-4111-8111-111111111111" : String).length ∧
    ((1733123456789 : Nat) ≠ 1733123456789 ∨
      ("00000000-0000-4000-8000-000000000000" : String) ≠
        "11111111-1111-4111-8111-111111111111") ∧
    generateObjectName 1733123456789 "00000000-0000-4000-8000-000000000000" "example.jpg" ≠
      generateObjectName 1733123456789 "11111111-1111-4111-8111-111111111111" "example.jpg" :=
  ⟨by decide, Or.inr (by decide),
   (C8_object_name_format_and_distinct 1733123456789 1733123456789
     "00000000-0000-4000-8000-000000000000" "11111111-1111-4111-8111-111111111111"
     "example.jpg" "example.jpg" (by decide) (Or.inr (by decide))).1⟩

/-- JavaScript `hay.includes(needle)` on character lists: some suffix
of the haystack starts with the needle. -/
def listIncludes (needle : List Char) : List Char → Bool
  | [] => needle.isEmpty
  | c :: t => needle.isPrefixOf (c :: t) || listIncludes needle t

/-- JavaScript `hay.includes(needle)` on strings. -/
def stringIncludes (hay needle : String) : Bool :=
  listIncludes needle.data hay.data

lemma isPrefixOf_refl_char (l : List Char) : l.isPrefixOf l = true := by
  induction l with
  | nil => rfl
  | cons c t ih => simp [List.isPrefixOf, ih]

lemma stringIncludes_refl (s : String) : stringIncludes s s = true := by
  unfold stringIncludes
  cases hd : s.data with
  | nil => rfl
  | cons c t =>
    have := isPrefixOf_refl_char (c :: t)
    simp [listIncludes, this]

/-- An object held by the MinIO bucket, with the metadata surfaced by
both the listing and the `statObject` call. -/
structure BucketObject where
  name : String
  etag : String
  versionId : Option String
  size : Nat
  contentType : Option String
deriving DecidableEq, Repr

/-- The connection configuration read from the environment. -/
structure MinioConfig where
  bucketName : String
  endpoint : String
  port : String
  useSSL : Bool
deriving DecidableEq, Repr

/-- Embeds `FilesService.getFilePublicUrl`. -/
def getFilePublicUrl (cfg : MinioConfig) (objectName : String) : String :=
  (if cfg.useSSL then "https" else "http") ++ "://" ++ cfg.endpoint ++ ":" ++
    cfg.port ++ "/" ++ cfg.bucketName ++ "/" ++ objectName

/-- The `UploadResponse` shape returned to file-API clients. -/
structure UploadResponse where
  bucket : String
  objectName : String
  etag : String
  versionId : Option String
  size : Nat
  mimetype : String
  url : String
deriving DecidableEq, Repr

/-- Embeds `stat.metaData?.['content-type'] || 'application/octet-stream'`:
an absent or empty content type falls back to the default. -/
def jsOrContentType (ct : Option String) : String :=
  match ct with
  | some s => if s.isEmpty then "application/octet-stream" else s
  | none => "application/octet-stream"

/-- The deterministic model of `minioClient.statObject`: the bucket's
object of exactly that name, if any. -/
def statObject (store : List BucketObject) (name : String) : Option BucketObject :=
  store.find? (fun o => o.name == name)

/-- Embeds `FilesService.fileExists`: `statObject` succeeded. -/
def fileExists (store : List BucketObject) (name : String) : Bool :=
  (statObject store name).isSome

/-- The response `FilesService.getFileById` builds from a listing
entry (plus the stat call for its content type). -/
def listingResponse (cfg : MinioConfig) (o : BucketObject) : UploadResponse :=
  { bucket := cfg.bucketName
    objectName := o.name
    etag := o.etag
    versionId := o.versionId
    size := o.size
    mimetype := jsOrContentType o.contentType
    url := getFilePublicUrl cfg o.name }

/-- Embeds `FilesService.getFileById`: scan the bucket listing and return the
first object whose name contains the identifier as a substring;
`none` when nothing matches. -/
def getFileById (cfg : MinioConfig) (store : List BucketObject)
    (id : String) : Option UploadResponse :=
  (store.find? (fun o => stringIncludes o.name id)).map (listingResponse cfg)

/-- The two failure classes of the file API: a 404-style not-found and
a 500-style storage failure. -/
inductive FileErr where
  | notFound
  | storageFailure
deriving DecidableEq, Repr

/-- The response `FilesController.getFile` builds from an exact-name
stat hit. -/
def exactResponse (cfg : MinioConfig) (id : String) (o : BucketObject) : UploadResponse :=
  { bucket := cfg.bucketName
    objectName := id
    etag := o.etag
    versionId := o.versionId
    size := o.size
    mimetype := jsOrContentType o.contentType
    url := getFilePublicUrl cfg id }

/-- Embeds `FilesController.getFile`: exact-name existence check first, then
the substring scan, finally a NotFound error. -/
def getFile (cfg : MinioConfig) (store : List BucketObject)
    (id : String) : Except FileErr UploadResponse :=
  match statObject store id with
  | some o => .ok (exactResponse cfg id o)
  | none =>
    match getFileById cfg store id with
    | some f => .ok f
    | none => .error .notFound

lemma find?_first_match {α : Type} (p : α → Bool) (pre post : List α) (o : α)
    (hpre : ∀ q ∈ pre, p q = false) (ho : p o = true) :
    (pre ++ o :: post).find? p = some o := by
  induction pre with
  | nil => simp [List.find?_cons, ho]
  | cons x xs ih =>
    have hx : p x = false := hpre x (List.mem_cons_self x xs)
    simpa [List.find?_cons, hx] using
      ih (fun q hq => hpre q (List.mem_cons_of_mem _ hq))

/-- C5: file retrieval tries an exact-name lookup first and returns
that object's metadata; otherwise it returns the first listing entry
whose name contains the identifier as a substring; when nothing
matches it produces the NotFound outcome, which is a different value
from the StorageFailure error. -/
theorem C5_identifier_resolution (cfg : MinioConfig) (store : List BucketObject)
    (id : String) :
    (∀ o, statObject store id = some o →
      getFile cfg store id = .ok (exactResponse cfg id o) ∧
      (exactResponse cfg id o).objectName = id) ∧
    (∀ pre o post, store = pre ++ o :: post →
      statObject store id = none →
      (∀ q ∈ pre, stringIncludes q.name id = false) →
      stringIncludes o.name id = true →
      getFile cfg store id = .ok (listingResponse cfg o)) ∧
    ((∀ o ∈ store, stringIncludes o.name id = false) →
      getFile cfg store id = .error .notFound) ∧
    FileErr.notFound ≠ FileErr.storageFailure := by
  refine ⟨?_, ?_, ?_, by decide⟩
  · intro o h
    exact ⟨by simp [getFile, h], rfl⟩
  · intro pre o post hstore hnone hpre ho
    have hfind : store.find? (fun q => stringIncludes q.name id) = some o := by
      rw [hstore]
      exact find?_first_match _ pre post o hpre ho
    simp [getFile, hnone, getFileById, hfind]
  · intro hall
    have hstat : statObject store id = none := by
      rw [statObject, List.find?_eq_none]
      intro x hx hbeq
      have hxid : x.name = id := by simpa using hbeq
      have := hall x hx
      rw [hxid, stringIncludes_refl] at this
      cases this
    have hbyid : store.find? (fun o => stringIncludes o.name id) = none := by
      rw [List.find?_eq_none]
      intro x hx hinc
      rw [hall x hx] at hinc
      cases hinc
    simp [getFile, hstat, getFileById, hbyid]

/-- The bucket contents used by the C5 witness. -/
def storeEx : List BucketObject :=
  [⟨"1733123456789-aaaa-photo.jpg", "e1", none, 10, some "image/jpeg"⟩,
   ⟨"1733123456790-bbbb-doc.pdf", "e2", some "v2", 20, some "application/pdf"⟩]

/-- The MinIO configuration used by the C5 witness. -/
def cfgEx : MinioConfig := ⟨"my-bucket", "localhost", "9000", false⟩

/-- C5 witness: resolving the UUID fragment `bbbb` (no exact-name hit)
returns the first — and here second-listed — object whose name
contains it. -/
theorem C5_witness :
    storeEx = [⟨"1733123456789-aaaa-photo.jpg", "e1", none, 10, some "image/jpeg"⟩] ++
      ⟨"1733123456790-bbbb-doc.pdf", "e2", some "v2", 20, some "application/pdf"⟩ :: [] ∧
    statObject storeEx "bbbb" = none ∧
    getFile cfgEx storeEx "bbbb" =
      .ok (listingResponse cfgEx ⟨"1733123456790-bbbb-doc.pdf", "e2", some "v2", 20,
        some "application/pdf"⟩) :=
  ⟨by rfl, by rfl,
   (C5_identifier_resolution cfgEx storeEx "bbbb").2.1
     [⟨"1733123456789-aaaa-photo.jpg", "e1", none, 10, some "image/jpeg"⟩]
     ⟨"1733123456790-bbbb-doc.pdf", "e2", some "v2", 20, some "application/pdf"⟩ []
     (by rfl) (by rfl) (by decide) (by decide)⟩

/-- The Prisma `UserStatus` enum. -/
inductive UserStatus where
  | ACTIVE
  | INACTIVE
  | SUSPENDED
  | PENDING
deriving DecidableEq, Repr

/-- A row of the `users` table (the `updatedAt` column plays no role
in any claim and is omitted). -/
structure UserRow where
  id : String
  email : String
  name : Option String
  password : String
  status : UserStatus
  deletedAt : Option Nat
  createdAt : Nat
deriving DecidableEq, Repr

/-- A field value of a serialized user object. -/
inductive FieldVal where
  | str (s : String)
  | nat (n : Nat)
  | nullv
deriving DecidableEq, Repr

/-- The string name of a `UserStatus` value. -/
def statusStr : UserStatus → String
  | .ACTIVE => "ACTIVE"
  | .INACTIVE => "INACTIVE"
  | .SUSPENDED => "SUSPENDED"
  | .PENDING => "PENDING"

/-- The plain JavaScript object Prisma returns for a user row, as a
keyed field list. -/
def rowObject (u : UserRow) : List (String × FieldVal) :=
  [("id", .str u.id), ("email", .str u.email),
   ("name", match u.name with | some n => .str n | none => .nullv),
   ("password", .str u.password),
   ("status", .str (statusStr u.status)),
   ("deletedAt", match u.deletedAt with | some t => .nat t | none => .nullv),
   ("createdAt", .nat u.createdAt)]

/-- A user entity as returned to callers: a keyed field list. -/
abbrev UserEntity := List (String × FieldVal)

/-- Embeds `UserService.excludePassword` (textually identical in both service
variants): destructure the `password` key away and keep every other
field. -/
def excludePassword (user : List (String × FieldVal)) : List (String × FieldVal) :=
  user.filter fun kv => !(kv.1 == "password")

/-- The domain-expected failures of the user service (NestJS
`NotFoundException` / `ConflictException`).  Storage failures cannot
arise in the pure store model. -/
inductive UserErr where
  | notFound
  | conflict
deriving DecidableEq, Repr

/-- The `findFirst({ id, deletedAt: null })` lookup used by
`UserService.findOne` and the precondition checks. -/
def findLive (db : List UserRow) (id : String) : Option UserRow :=
  db.find? fun u => u.id == id && u.deletedAt.isNone

namespace UserService

/-- Embeds `UserService.findOne`: default read, excludes soft-deleted rows,
NotFound otherwise. -/
def findOne (db : List UserRow) (id : String) : Except UserErr UserEntity :=
  match findLive db id with
  | some u => .ok (excludePassword (rowObject u))
  | none => .error .notFound

/-- Embeds `UserService.findByEmail`: soft-delete-filtered email lookup that
returns `none` rather than failing. -/
def findByEmail (db : List UserRow) (email : String) : Option UserEntity :=
  match db.find? (fun u => u.email == email && u.deletedAt.isNone) with
  | some u => some (excludePassword (rowObject u))
  | none => none

/-- Embeds `UserService.create`: uniqueness check by `findUnique({email})`
with NO soft-delete filter, then the insert.  The generated id, the
clock and the bcrypt hash are parameters standing for the effects. -/
def create (hash : String → String) (db : List UserRow) (newId : String) (now : Nat)
    (email : String) (uname : Option String) (password : String) :
    Except UserErr (UserEntity × List UserRow) :=
  match db.find? (fun u => u.email == email) with
  | some _ => .error .conflict
  | none =>
    let row : UserRow :=
      { id := newId, email := email, name := uname, password := hash password
        status := .ACTIVE, deletedAt := none, createdAt := now }
    .ok (excludePassword (rowObject row), db ++ [row])

end UserService

/-- Lower-cased character list of a string, for Prisma's
`contains / mode: insensitive`. -/
def lowerData (s : String) : List Char := s.data.map Char.toLower

/-- Embeds `QueryHelper.buildSearchWhere(q, ['email', 'name'])`: a falsy term
matches everything; otherwise a disjunction of case-insensitive
contains predicates over email and name (a null name never matches). -/
def searchMatches (q : Option String) (u : UserRow) : Bool :=
  match q with
  | none => true
  | some s =>
    if s.isEmpty then true
    else
      listIncludes (lowerData s) (lowerData u.email) ||
        (match u.name with
         | some n => listIncludes (lowerData s) (lowerData n)
         | none => false)

/-- Embeds `QueryHelper.getPaginationOptions`: `dto.page || 1` and
`dto.limit || 10` (JavaScript `||`, so an explicit 0 also falls back),
and `skip = (page - 1) * limit`. -/
def getPaginationOptions (pageField limitField : Option Nat) : Nat × Nat × Nat :=
  let page := match pageField with | some p => if p = 0 then 1 else p | none => 1
  let limit := match limitField with | some l => if l = 0 then 10 else l | none => 10
  (page, limit, (page - 1) * limit)

/-- The `SortOrder` enum of the pagination DTO. -/
inductive SortOrderDto where
  | asc
  | desc
deriving DecidableEq, Repr

/-- Embeds `QueryHelper.buildOrderBy` with the default `createdAt` column
(a client-chosen dynamic sort column cannot be represented over a
fixed row type and is not modelled; no claim depends on it). -/
def orderByCreatedAt (ord : SortOrderDto) (l : List UserRow) : List UserRow :=
  match ord with
  | .desc => l.mergeSort fun a b => decide (b.createdAt ≤ a.createdAt)
  | .asc => l.mergeSort fun a b => decide (a.createdAt ≤ b.createdAt)

/-- The `PaginationWithSearchDto` fields `UserService.findAll` reads. -/
structure FindAllQuery where
  page : Option Nat
  limit : Option Nat
  q : Option String
  sortOrder : SortOrderDto
deriving DecidableEq, Repr

/-- The `{ data, meta }` shape `UserService.findAll` returns. -/
structure FindAllResult where
  data : List UserEntity
  meta : PaginationMeta
deriving DecidableEq, Repr

namespace UserService

/-- Embeds `UserService.findAll` (soft-delete variant): filter by search AND
`deletedAt: null`, order, `skip`/`take`, strip passwords, and build
`QueryHelper.buildMeta` metadata from the filtered count. -/
def findAll (db : List UserRow) (dto : FindAllQuery) : FindAllResult :=
  let opts := getPaginationOptions dto.page dto.limit
  let filtered := db.filter fun u => searchMatches dto.q u && u.deletedAt.isNone
  let pageRows := ((orderByCreatedAt dto.sortOrder filtered).drop opts.2.2).take opts.2.1
  { data := pageRows.map fun u => excludePassword (rowObject u)
    meta := buildMeta opts.1 opts.2.1 filtered.length }

/-- The row produced by the `prisma.user.update` data of
`UserService.update`: an absent dto key (undefined) leaves the column
unchanged, and the password is set (hashed) only when truthy. -/
def applyUpdate (hash : String → String) (emailField unameField passwordField : Option String)
    (u : UserRow) : UserRow :=
  { u with
    email := match emailField with | some e => e | none => u.email
    name := match unameField with | some n => some n | none => u.name
    password :=
      match passwordField with
      | some p => if p.isEmpty then u.password else hash p
      | none => u.password }

/-- Embeds `UserService.update`: existence check via the soft-delete-filtered
`findOne`; email-conflict check via the unfiltered `findUnique({email})`
(skipped when the dto email is falsy), conflicting unless the found
row is the user being updated; then the row update. -/
def update (hash : String → String) (db : List UserRow) (id : String)
    (emailField unameField passwordField : Option String) :
    Except UserErr (UserEntity × List UserRow) :=
  match findLive db id with
  | none => .error .notFound
  | some u0 =>
    let emailConflict : Bool :=
      match emailField with
      | some e =>
        if e.isEmpty then false
        else
          match db.find? (fun u => u.email == e) with
          | some ex => !(ex.id == id)
          | none => false
      | none => false
    if emailConflict then .error .conflict
    else
      .ok (excludePassword (rowObject (applyUpdate hash emailField unameField passwordField u0)),
        db.map fun u : UserRow =>
          if u.id = id then applyUpdate hash emailField unameField passwordField u else u)

/-- Embeds `UserService.remove` (soft delete): NotFound unless a live row with
the id exists; otherwise set the delete timestamp to the clock. -/
def remove (db : List UserRow) (now : Nat) (id : String) :
    Except UserErr (List UserRow) :=
  match findLive db id with
  | none => .error .notFound
  | some _ =>
    .ok (db.map fun u => if u.id = id then { u with deletedAt := some now } else u)

/-- Embeds `UserService.restore`: unfiltered `findUnique({id})`; NotFound when
absent, Conflict when the row was never deleted, else clear the
timestamp and return the restored entity. -/
def restore (db : List UserRow) (id : String) :
    Except UserErr (UserEntity × List UserRow) :=
  match db.find? (fun u => u.id == id) with
  | none => .error .notFound
  | some u =>
    if u.deletedAt.isNone then .error .conflict
    else
      .ok (excludePassword (rowObject { u with deletedAt := none }),
        db.map fun v => if v.id = id then { v with deletedAt := none } else v)

/-- Embeds `UserService.updateStatus`: visible-row existence check, then
overwrite the status (any status may move to any other). -/
def updateStatus (db : List UserRow) (id : String) (st : UserStatus) :
    Except UserErr (UserEntity × List UserRow) :=
  match findLive db id with
  | none => .error .notFound
  | some u0 =>
    .ok (excludePassword (rowObject { u0 with status := st }),
      db.map fun u => if u.id = id then { u with status := st } else u)

/-- Embeds `UserService.validateCredentials`: unfiltered email lookup and the
bcrypt comparison (passed as a parameter); `none` on any mismatch. -/
def validateCredentials (compare : String → String → Bool) (db : List UserRow)
    (email password : String) : Option UserEntity :=
  match db.find? (fun u => u.email == email) with
  | none => none
  | some u =>
    if compare password u.password then some (excludePassword (rowObject u)) else none

end UserService

lemma excludePassword_no_password (o : List (String × FieldVal)) :
    ∀ kv ∈ excludePassword o, kv.1 ≠ "password" := by
  intro kv hkv
  have := List.of_mem_filter hkv
  simpa using this

lemma entity_id_field (u : UserRow) :
    (excludePassword (rowObject u)).lookup "id" = some (.str u.id) := rfl

lemma entity_email_field (u : UserRow) :
    (excludePassword (rowObject u)).lookup "email" = some (.str u.email) := rfl

lemma remove_marks_all (db : List UserRow) (id : String) (now : Nat) :
    ∀ u ∈ db.map (fun u => if u.id = id then { u with deletedAt := some now } else u),
      u.id = id → u.deletedAt = some now := by
  intro u hu hid
  rw [List.mem_map] at hu
  obtain ⟨v, hv, rfl⟩ := hu
  by_cases h : v.id = id
  · simp [h]
  · rw [if_neg h] at hid ⊢
    exact absurd hid h

lemma findAll_data_mem (db : List UserRow) (dto : FindAllQuery) (e : UserEntity)
    (he : e ∈ (UserService.findAll db dto).data) :
    ∃ u ∈ db, u.deletedAt = none ∧ e = excludePassword (rowObject u) := by
  simp only [UserService.findAll] at he
  rw [List.mem_map] at he
  obtain ⟨u, hu, rfl⟩ := he
  have h1 := List.mem_of_mem_take hu
  have h2 := List.mem_of_mem_drop h1
  have h3 : u ∈ db.filter fun v => searchMatches dto.q v && v.deletedAt.isNone := by
    cases ho : dto.sortOrder <;> rw [ho] at h2 <;>
      simpa [orderByCreatedAt] using h2
  have h4 := List.mem_filter.mp h3
  refine ⟨u, h4.1, ?_, rfl⟩
  have h5 := h4.2
  rw [Bool.and_eq_true] at h5
  exact Option.isNone_iff_eq_none.mp h5.2

/-- C2: soft delete of a live user marks its delete timestamp with the
clock value, after which default `findOne` fails with NotFound and no
`findAll` page ever contains an entity with that id; on an id with no
live row (nonexistent or already soft-deleted) it fails with NotFound
instead of silently succeeding. -/
theorem C2_soft_delete_hides_user (db : List UserRow) (id : String) (now : Nat) :
    (∀ u0, findLive db id = some u0 →
      ∃ db', UserService.remove db now id = .ok db' ∧
        (∀ u ∈ db', u.id = id → u.deletedAt = some now) ∧
        UserService.findOne db' id = .error .notFound ∧
        (∀ dto : FindAllQuery, ∀ e ∈ (UserService.findAll db' dto).data,
          e.lookup "id" ≠ some (.str id))) ∧
    ((∀ u ∈ db, u.id = id → u.deletedAt ≠ none) →
      UserService.remove db now id = .error .notFound) := by
  constructor
  · intro u0 h
    refine ⟨db.map fun u => if u.id = id then { u with deletedAt := some now } else u,
      by simp [UserService.remove, h], remove_marks_all db id now, ?_, ?_⟩
    · have hnone : findLive
          (db.map fun u => if u.id = id then { u with deletedAt := some now } else u) id =
          none := by
        rw [findLive, List.find?_eq_none]
        intro u hu hb
        simp only [Bool.and_eq_true, beq_iff_eq] at hb
        have := remove_marks_all db id now u hu hb.1
        rw [this] at hb
        simp at hb
      simp [UserService.findOne, hnone]
    · intro dto e he heq
      obtain ⟨u, hu, hlive, rfl⟩ := findAll_data_mem _ dto e he
      rw [entity_id_field] at heq
      have hid : u.id = id := by
        have := Option.some.inj heq
        exact FieldVal.str.inj this
      have := remove_marks_all db id now u hu hid
      rw [this] at hlive
      cases hlive
  · intro hall
    have hnone : findLive db id = none := by
      rw [findLive, List.find?_eq_none]
      intro u hu hb
      simp only [Bool.and_eq_true, beq_iff_eq] at hb
      exact hall u hu hb.1 (Option.isNone_iff_eq_none.mp hb.2)
    simp [UserService.remove, hnone]

/-- The live user row used by several witnesses. -/
def userRowEx : UserRow := ⟨"u1", "a@example.com", some "A", "hash", .ACTIVE, none, 5⟩

/-- C2 witness: soft-deleting the one live user `u1` at time 99 marks
it deleted and hides it from `findOne` and every `findAll` page. -/
theorem C2_witness :
    findLive [userRowEx] "u1" = some userRowEx ∧
    (∃ db', UserService.remove [userRowEx] 99 "u1" = .ok db' ∧
      (∀ u ∈ db', u.id = "u1" → u.deletedAt = some 99) ∧
      UserService.findOne db' "u1" = .error .notFound ∧
      (∀ dto : FindAllQuery, ∀ e ∈ (UserService.findAll db' dto).data,
        e.lookup "id" ≠ some (.str "u1"))) :=
  ⟨by rfl, (C2_soft_delete_hides_user [userRowEx] "u1" 99).1 userRowEx (by rfl)⟩

lemma restore_find (db : List UserRow) (id : String) (u : UserRow)
    (h : db.find? (fun v => v.id == id) = some u) :
    findLive (db.map fun v => if v.id = id then { v with deletedAt := none } else v) id =
      some { u with deletedAt := none } := by
  induction db with
  | nil => simp at h
  | cons x xs ih =>
    by_cases hx : x.id = id
    · rw [List.find?_cons_of_pos _ (by simpa using hx)] at h
      have hxu : x = u := Option.some.inj h
      subst hxu
      rw [List.map_cons, if_pos hx, findLive,
        List.find?_cons_of_pos _ (by simp [hx])]
    · rw [List.find?_cons_of_neg _ (by simpa using hx)] at h
      have := ih h
      rw [List.map_cons, if_neg hx, findLive,
        List.find?_cons_of_neg _ (by simp [hx])]
      exact this

/-- C3: `restore` looks the row up ignoring the soft-delete filter; it
fails with NotFound when no row has the id, fails with Conflict when
the row's delete timestamp is null, and otherwise clears the timestamp
and returns the user, after which `findOne` returns the same entity —
whose `id` and `email` fields are the stored ones, unchanged. -/
theorem C3_restore_lifecycle (db : List UserRow) (id : String) :
    ((∀ u ∈ db, u.id ≠ id) → UserService.restore db id = .error .notFound) ∧
    (∀ u, db.find? (fun v => v.id == id) = some u → u.deletedAt = none →
      UserService.restore db id = .error .conflict) ∧
    (∀ u t, db.find? (fun v => v.id == id) = some u → u.deletedAt = some t →
      ∃ db', UserService.restore db id =
          .ok (excludePassword (rowObject { u with deletedAt := none }), db') ∧
        (excludePassword (rowObject { u with deletedAt := none })).lookup "id" =
          some (.str u.id) ∧
        (excludePassword (rowObject { u with deletedAt := none })).lookup "email" =
          some (.str u.email) ∧
        UserService.findOne db' id =
          .ok (excludePassword (rowObject { u with deletedAt := none }))) := by
  refine ⟨?_, ?_, ?_⟩
  · intro hall
    have hnone : db.find? (fun v => v.id == id) = none := by
      rw [List.find?_eq_none]
      intro u hu hb
      exact hall u hu (by simpa using hb)
    simp [UserService.restore, hnone]
  · intro u hfind hdel
    simp [UserService.restore, hfind, hdel]
  · intro u t hfind hdel
    refine ⟨db.map fun v => if v.id = id then { v with deletedAt := none } else v,
      by simp [UserService.restore, hfind, hdel], entity_id_field _, entity_email_field _, ?_⟩
    simp [UserService.findOne, restore_find db id u hfind]

/-- A soft-deleted user row used by the C3 witness. -/
def deletedRowEx : UserRow := ⟨"u2", "b@example.com", none, "hash2", .ACTIVE, some 50, 6⟩

/-- C3 witness: restoring the soft-deleted `u2` clears its timestamp
and `findOne` returns it again with unchanged id and email; restoring
the never-deleted `u1` gives Conflict and a missing id gives NotFound. -/
theorem C3_witness :
    ([userRowEx, deletedRowEx].find? (fun v => v.id == "u2") = some deletedRowEx ∧
     deletedRowEx.deletedAt = some 50) ∧
    (∃ db', UserService.restore [userRowEx, deletedRowEx] "u2" =
        .ok (excludePassword (rowObject { deletedRowEx with deletedAt := none }), db') ∧
      (excludePassword (rowObject { deletedRowEx with deletedAt := none })).lookup "id" =
        some (.str deletedRowEx.id) ∧
      (excludePassword (rowObject { deletedRowEx with deletedAt := none })).lookup "email" =
        some (.str deletedRowEx.email) ∧
      UserService.findOne db' "u2" =
        .ok (excludePassword (rowObject { deletedRowEx with deletedAt := none }))) ∧
    UserService.restore [userRowEx, deletedRowEx] "u1" = .error .conflict ∧
    UserService.restore [userRowEx, deletedRowEx] "zzz" = .error .notFound := by
  have h := C3_restore_lifecycle [userRowEx, deletedRowEx] "u2"
  refine ⟨⟨by rfl, by rfl⟩, h.2.2 deletedRowEx 50 (by rfl) (by rfl), ?_, ?_⟩
  · exact (C3_restore_lifecycle [userRowEx, deletedRowEx] "u1").2.1 userRowEx (by rfl) (by rfl)
  · exact (C3_restore_lifecycle [userRowEx, deletedRowEx] "zzz").1 (by decide)

/-- C4: the email-uniqueness checks of `create` and `update` use the
unfiltered `findUnique({email})`: any row with the email — live or
soft-deleted — makes `create` fail with Conflict, and makes `update`
to that email fail with Conflict unless the row is the user being
updated (in which case the update proceeds). -/
theorem C4_email_conflict_ignores_soft_delete (hash : String → String)
    (db : List UserRow) (newId : String) (now : Nat) (e pw : String)
    (uname unameField passwordField : Option String) (id : String) :
    ((∃ r ∈ db, r.email = e) →
      UserService.create hash db newId now e uname pw = .error .conflict) ∧
    (∀ u0, findLive db id = some u0 → e ≠ "" →
      (∃ r ∈ db, r.email = e) → (∀ r ∈ db, r.email = e → r.id ≠ id) →
      UserService.update hash db id (some e) unameField passwordField = .error .conflict) ∧
    (∀ u0, findLive db id = some u0 → (∀ r ∈ db, r.email = e → r.id = id) →
      ∃ ent db2, UserService.update hash db id (some e) unameField passwordField =
        .ok (ent, db2)) := by
  refine ⟨?_, ?_, ?_⟩
  · rintro ⟨r, hr, he⟩
    cases hfind : db.find? (fun u => u.email == e) with
    | none =>
      rw [List.find?_eq_none] at hfind
      exact absurd (by simpa using he) (hfind r hr)
    | some x => simp [UserService.create, hfind]
  · intro u0 hu0 hne hex hall
    cases hfind : db.find? (fun u => u.email == e) with
    | none =>
      obtain ⟨r, hr, he⟩ := hex
      rw [List.find?_eq_none] at hfind
      exact absurd (by simpa using he) (hfind r hr)
    | some ex =>
      have hmem := List.mem_of_find?_eq_some hfind
      have hexe : ex.email = e := by simpa using List.find?_some hfind
      have hexid : ex.id ≠ id := hall ex hmem hexe
      have hEmpty : e.isEmpty = false := by
        cases hE : e.isEmpty
        · rfl
        · exact absurd ((String.isEmpty_iff e).mp hE) hne
      simp [UserService.update, hu0, hfind, hEmpty, hexid]
  · intro u0 hu0 hall
    refine ⟨excludePassword (rowObject
        (UserService.applyUpdate hash (some e) unameField passwordField u0)),
      db.map fun u =>
        if u.id = id then UserService.applyUpdate hash (some e) unameField passwordField u
        else u, ?_⟩
    by_cases hE : e.isEmpty
    · simp [UserService.update, hu0, hE]
    · cases hfind : db.find? (fun u => u.email == e) with
      | none => simp [UserService.update, hu0, hfind, hE]
      | some ex =>
        have hmem := List.mem_of_find?_eq_some hfind
        have hexe : ex.email = e := by simpa using List.find?_some hfind
        have hexid : ex.id = id := hall ex hmem hexe
        simp [UserService.update, hu0, hfind, hE, hexid]

/-- C4 witness: the soft-deleted `u2` still owns `b@example.com`, so
creating a new user with it conflicts, and updating the live `u1` to
it conflicts too. -/
theorem C4_witness :
    (deletedRowEx ∈ [userRowEx, deletedRowEx] ∧ deletedRowEx.email = "b@example.com" ∧
      deletedRowEx.deletedAt = some 50) ∧
    UserService.create (fun s => s) [userRowEx, deletedRowEx] "u3" 7 "b@example.com"
      none "pw" = .error .conflict ∧
    UserService.update (fun s => s) [userRowEx, deletedRowEx] "u1" (some "b@example.com")
      none none = .error .conflict := by
  have h := C4_email_conflict_ignores_soft_delete (fun s => s) [userRowEx, deletedRowEx]
    "u3" 7 "b@example.com" "pw" none none none "u1"
  refine ⟨⟨by simp, by rfl, by rfl⟩, ?_, ?_⟩
  · exact h.1 ⟨deletedRowEx, by simp, by rfl⟩
  · exact h.2.1 userRowEx (by rfl) (by decide) ⟨deletedRowEx, by simp, by rfl⟩ (by decide)

/-- C9: no entity returned by any public user-service operation
(`create`, `findAll`, `findOne`, `findByEmail`, `update`, `restore`,
`updateStatus`, `validateCredentials`) carries a `password` field. -/
theorem C9_password_never_returned (hash : String → String)
    (compare : String → String → Bool) (db : List UserRow)
    (newId : String) (now : Nat) (email pw : String)
    (uname emailField unameField passwordField : Option String)
    (id : String) (st : UserStatus) (dto : FindAllQuery) :
    (∀ ent db2, UserService.create hash db newId now email uname pw = .ok (ent, db2) →
      ∀ kv ∈ ent, kv.1 ≠ "password") ∧
    (∀ e ∈ (UserService.findAll db dto).data, ∀ kv ∈ e, kv.1 ≠ "password") ∧
    (∀ ent, UserService.findOne db id = .ok ent → ∀ kv ∈ ent, kv.1 ≠ "password") ∧
    (∀ ent, UserService.findByEmail db email = some ent → ∀ kv ∈ ent, kv.1 ≠ "password") ∧
    (∀ ent db2, UserService.update hash db id emailField unameField passwordField =
        .ok (ent, db2) → ∀ kv ∈ ent, kv.1 ≠ "password") ∧
    (∀ ent db2, UserService.restore db id = .ok (ent, db2) →
      ∀ kv ∈ ent, kv.1 ≠ "password") ∧
    (∀ ent db2, UserService.updateStatus db id st = .ok (ent, db2) →
      ∀ kv ∈ ent, kv.1 ≠ "password") ∧
    (∀ ent, UserService.validateCredentials compare db email pw = some ent →
      ∀ kv ∈ ent, kv.1 ≠ "password") := by
  refine ⟨?_, ?_, ?_, ?_, ?_, ?_, ?_, ?_⟩
  · intro ent db2 hok
    cases hfind : db.find? (fun u => u.email == email) with
    | some x => simp [UserService.create, hfind] at hok
    | none =>
      simp only [UserService.create, hfind, Except.ok.injEq, Prod.mk.injEq] at hok
      rw [← hok.1]
      exact excludePassword_no_password _
  · intro e he
    obtain ⟨u, -, -, rfl⟩ := findAll_data_mem db dto e he
    exact excludePassword_no_password _
  · intro ent hok
    cases hfl : findLive db id with
    | none => simp [UserService.findOne, hfl] at hok
    | some u =>
      simp only [UserService.findOne, hfl, Except.ok.injEq] at hok
      rw [← hok]
      exact excludePassword_no_password _
  · intro ent hok
    cases hf : db.find? (fun u => u.email == email && u.deletedAt.isNone) with
    | none => simp [UserService.findByEmail, hf] at hok
    | some u =>
      simp only [UserService.findByEmail, hf, Option.some.injEq] at hok
      rw [← hok]
      exact excludePassword_no_password _
  · intro ent db2 hok
    cases hfl : findLive db id with
    | none => simp [UserService.update, hfl] at hok
    | some u0 =>
      simp only [UserService.update, hfl] at hok
      split at hok
      · exact Except.noConfusion hok
      · simp only [Except.ok.injEq, Prod.mk.injEq] at hok
        rw [← hok.1]
        exact excludePassword_no_password _
  · intro ent db2 hok
    cases hf : db.find? (fun u => u.id == id) with
    | none => simp [UserService.restore, hf] at hok
    | some u =>
      simp only [UserService.restore, hf] at hok
      split at hok
      · exact Except.noConfusion hok
      · simp only [Except.ok.injEq, Prod.mk.injEq] at hok
        rw [← hok.1]
        exact excludePassword_no_password _
  · intro ent db2 hok
    cases hfl : findLive db id with
    | none => simp [UserService.updateStatus, hfl] at hok
    | some u0 =>
      simp only [UserService.updateStatus, hfl, Except.ok.injEq, Prod.mk.injEq] at hok
      rw [← hok.1]
      exact excludePassword_no_password _
  · intro ent hok
    cases hf : db.find? (fun u => u.email == email) with
    | none => simp [UserService.validateCredentials, hf] at hok
    | some u =>
      simp only [UserService.validateCredentials, hf] at hok
      split at hok
      · simp only [Option.some.injEq] at hok
        rw [← hok]
        exact excludePassword_no_password _
      · exact Option.noConfusion hok

/-- C9 witness: the entity `findOne` returns for `u1` has no
`password` key. -/
theorem C9_witness :
    UserService.findOne [userRowEx] "u1" = .ok (excludePassword (rowObject userRowEx)) ∧
    (∀ kv ∈ excludePassword (rowObject userRowEx), kv.1 ≠ "password") :=
  ⟨by rfl,
   (C9_password_never_returned (fun s => s) (fun _ _ => true) [userRowEx] "u3" 0 "" ""
     none none none none "u1" .ACTIVE ⟨none, none, none, .desc⟩).2.2.1
     (excludePassword (rowObject userRowEx)) (by rfl)⟩
